import Mathlib

/-!
Verification of the ccheatmap core pipeline (src/data-loader.ts and
src/heatmap-renderer.ts) against its natural-language specification.

Modelling conventions (shallow embedding):
- Instants (JavaScript Date values) are integers: seconds since the Unix
  epoch, UTC.  The host is assumed to run in UTC (the spec pins the day
  boundary to the UTC calendar day), so Date.setDate arithmetic is plain
  arithmetic on seconds and date-fns startOfWeek lands on UTC midnights.
- Calendar days (the ISO "YYYY-MM-DD" keys produced by
  toISOString().split('T')[0]) are integers: days since 1970-01-01.
  Lexicographic order on ISO date strings coincides with numeric order on
  day numbers, and parsing a key back with new Date gives the UTC
  midnight day * 86400, so sorting and the streak day-difference test
  transfer directly.
- A JavaScript Map is modelled as an association list in insertion order
  (Map.set overwrites in place or appends, Map.get is the first -- and
  only -- binding); a JavaScript Set of strings is a Finset String.
- An invalid timestamp (new Date(x) with x missing or unparseable) is
  modelled as timestamp = none: in the source the NaN comparison with the
  cutoff is false and the subsequent toISOString() throws inside the
  per-line try/catch before any state is mutated, so the line leaves the
  accumulator untouched.
- fs errors are modelled structurally: an unreadable file, an entry whose
  stat call throws, a project directory whose readdir throws, and a root
  whose readdir throws each get their own constructor, and the embedding
  reproduces the try/catch placement of the source (the catch in
  processDirectory sits outside the project loop).
-/

/-- Seconds in one day; overflow is not a concern (arbitrary precision). -/
def secPerDay : Int := 86400

/-- UTC calendar day of an instant, as in toISOString().split('T')[0].
Int division here is Euclidean division, which floors for the positive
divisor 86400, matching the UTC day of a JavaScript Date. -/
def dayOfInstant (t : Int) : Int := t / secPerDay

/-- message.usage payload of a log record (data-loader.ts, UsageEntry).
Each sub-counter may be absent in the JSON; the source reads it with
a zero fallback. -/
structure Usage where
  input_tokens : Option Nat
  output_tokens : Option Nat
  cache_creation_input_tokens : Option Nat
  cache_read_input_tokens : Option Nat
deriving DecidableEq

/-- message payload of a log record. -/
structure UsageMessage where
  usage : Option Usage
deriving DecidableEq

/-- A parsed log record.  timestamp = none models a timestamp field that
is missing or does not parse to a valid instant. -/
structure UsageEntry where
  timestamp : Option Int
  message : Option UsageMessage
deriving DecidableEq

/-- One line of a .jsonl file, after JSON.parse: either malformed JSON or
a parsed record. -/
inductive Line where
  | malformed : Line
  | parsed (e : UsageEntry) : Line
deriving DecidableEq

/-- Per-day accumulator (data-loader.ts, DailyActivity). -/
structure DailyActivity where
  date : Int
  sessions : Finset String
  interactions : Nat
  tokens : Nat
deriving DecidableEq

/-- The activity map, a JavaScript Map in insertion order. -/
abbrev ActivityIndex := List (Int × DailyActivity)

/-- Map.set: overwrite the binding in place if present, else append. -/
def setKey (m : ActivityIndex) (k : Int) (v : DailyActivity) : ActivityIndex :=
  match m with
  | [] => [(k, v)]
  | (k', v') :: rest => if k' = k then (k, v) :: rest else (k', v') :: setKey rest k v

/-- Fresh accumulator for a date key (data-loader.ts lines 156-161). -/
def emptyDaily (k : Int) : DailyActivity :=
  { date := k, sessions := ∅, interactions := 0, tokens := 0 }

/-- Token sum of one record: the four sub-counters with absent ones as 0
(data-loader.ts lines 172-178); 0 when message.usage is absent. -/
def tokensOfEntry (e : UsageEntry) : Nat :=
  match e.message with
  | none => 0
  | some msg =>
    match msg.usage with
    | none => 0
    | some u =>
      u.input_tokens.getD 0 + u.output_tokens.getD 0 +
        u.cache_creation_input_tokens.getD 0 + u.cache_read_input_tokens.getD 0

/-- The mutations data-loader.ts lines 164-178 apply to the fetched day
accumulator: add the project/session id, bump the interaction counter,
add the record's token sum. -/
def applyEntry (project session : String) (e : UsageEntry) (a : DailyActivity) :
    DailyActivity :=
  { a with
    sessions := insert (project ++ "/" ++ session) a.sessions
    interactions := a.interactions + 1
    tokens := a.tokens + tokensOfEntry e }

/-- Body of the per-line loop of processJsonlFile (data-loader.ts lines
141-181).  A malformed line is skipped by the inner catch; an invalid
timestamp survives the cutoff comparison (NaN compares false) but
toISOString() then throws before any mutation, so the line is a no-op;
a record strictly older than the cutoff is skipped; otherwise the
record's UTC day accumulator is created on demand and updated. -/
def processLine (cutoff : Int) (project session : String)
    (m : ActivityIndex) (l : Line) : ActivityIndex :=
  match l with
  | .malformed => m
  | .parsed e =>
    match e.timestamp with
    | none => m
    | some t =>
      if t < cutoff then m
      else
        let dateKey := dayOfInstant t
        setKey m dateKey
          (applyEntry project session e ((List.lookup dateKey m).getD (emptyDaily dateKey)))

/-- The line loop of processJsonlFile over the non-empty lines of a file. -/
def processLines (cutoff : Int) (project session : String)
    (m : ActivityIndex) (ls : List Line) : ActivityIndex :=
  ls.foldl (processLine cutoff project session) m

/-- Content of a session file: unreadable (readFile throws, swallowed by
the catch of processJsonlFile) or its parsed non-empty lines. -/
inductive FileContent where
  | unreadable : FileContent
  | lines (ls : List Line) : FileContent
deriving DecidableEq

/-- processJsonlFile (data-loader.ts lines 126-186): an unreadable file
leaves the accumulator untouched, otherwise every line is folded in. -/
def processJsonlFile (cutoff : Int) (project session : String)
    (m : ActivityIndex) (c : FileContent) : ActivityIndex :=
  match c with
  | .unreadable => m
  | .lines ls => processLines cutoff project session m ls

/-- One directory entry of a root, as seen by the project loop of
processDirectory: a non-directory entry (skipped via continue), an entry
whose stat call throws, a project directory whose readdir throws, or a
listable project with its files (name and content). -/
inductive ProjectEntry where
  | notDir (name : String) : ProjectEntry
  | statError (name : String) : ProjectEntry
  | listError (name : String) : ProjectEntry
  | proj (name : String) (files : List (String × FileContent)) : ProjectEntry
deriving DecidableEq

/-- f.endsWith(ext), on the character list of the name. -/
def nameEndsWith (s suffix : String) : Bool := suffix.data.isSuffixOf s.data

/-- Remove the first occurrence of pat, on character lists. -/
def removeFirstAux (pat : List Char) : List Char → List Char
  | [] => []
  | c :: cs =>
    if pat.isPrefixOf (c :: cs) then (c :: cs).drop pat.length
    else c :: removeFirstAux pat cs

/-- file.replace('.jsonl', ''): a JavaScript string replace with a string
pattern replaces only the first occurrence. -/
def removeFirst (s pat : String) : String := ⟨removeFirstAux pat.data s.data⟩

/-- File loop of processDirectory (data-loader.ts lines 105-116): keep
names ending in .jsonl, derive the session id by dropping the extension,
and process each file. -/
def processProject (cutoff : Int) (project : String)
    (m : ActivityIndex) (files : List (String × FileContent)) : ActivityIndex :=
  (files.filter (fun f => nameEndsWith f.1 ".jsonl")).foldl
    (fun acc f => processJsonlFile cutoff project (removeFirst f.1 ".jsonl") acc f.2) m

/-- Project loop of processDirectory (data-loader.ts lines 99-117).  The
try/catch of processDirectory wraps this whole loop, so a stat or readdir
failure on one project entry aborts the remaining entries of this root;
the accumulator built so far is kept. -/
def processProjects (cutoff : Int) (m : ActivityIndex) :
    List ProjectEntry → ActivityIndex
  | [] => m
  | .notDir _ :: rest => processProjects cutoff m rest
  | .statError _ :: _ => m
  | .listError _ :: _ => m
  | .proj name files :: rest =>
    processProjects cutoff (processProject cutoff name m files) rest

/-- processDirectory (data-loader.ts lines 87-123): a root whose readdir
throws is skipped whole. -/
def processDirectory (cutoff : Int) (m : ActivityIndex)
    (root : Option (List ProjectEntry)) : ActivityIndex :=
  match root with
  | none => m
  | some ps => processProjects cutoff m ps

/-- loadUsageData (data-loader.ts lines 69-85).  cutoffDate is obtained
from the current instant by stepping the calendar back days days while
keeping the time of day, i.e. now - days * 86400 in UTC. -/
def loadUsageData (roots : List (Option (List ProjectEntry)))
    (days : Nat) (now : Int) : ActivityIndex :=
  roots.foldl (fun m r => processDirectory (now - (days : Int) * secPerDay) m r) []

/-! ## Grid builder and intensity classifier (heatmap-renderer.ts) -/

/-- The metric selector. -/
inductive HeatmapMetric where
  | sessions : HeatmapMetric
  | tokens : HeatmapMetric
  | interactions : HeatmapMetric
deriving DecidableEq

/-- Metric value of one day's accumulator (the switch repeated at
heatmap-renderer.ts lines 110-120 and 335-345). -/
def metricValue (metric : HeatmapMetric) (a : DailyActivity) : Nat :=
  match metric with
  | .sessions => a.sessions.card
  | .tokens => a.tokens
  | .interactions => a.interactions

/-- A heatmap cell: calendar day, metric value, intensity level. -/
structure Cell where
  date : Int
  value : Nat
  intensity : Int
deriving DecidableEq

/-- Default cell used only to read components of cells proven to exist. -/
def defaultCell : Cell := { date := 0, value := 0, intensity := 0 }

/-- Day of week with 0 = Sunday (1970-01-01 was a Thursday). -/
def dayOfWeekSun (d : Int) : Int := (d + 4) % 7

/-- date-fns startOfWeek with weekStartsOn 0, on day numbers. -/
def startOfWeekDay (d : Int) : Int := d - dayOfWeekSun d

/-- Metric value the grid reads for a date key (heatmap-renderer.ts lines
106-121): 0 when the date is absent from the index. -/
def cellValueAt (index : ActivityIndex) (metric : HeatmapMetric) (day : Int) : Nat :=
  match List.lookup day index with
  | none => 0
  | some a => metricValue metric a

/-- One cell of the grid (heatmap-renderer.ts lines 103-147).  The
branches are taken in source order: in-range; strictly after endDate
(future, kept as an empty square with intensity 0 and value forced to 0);
otherwise before the range (intensity -1). -/
def cellFor (index : ActivityIndex) (metric : HeatmapMetric)
    (startInstant endInstant : Int) (day : Int) : Cell :=
  let midnight := day * secPerDay
  let value := cellValueAt index metric day
  if startInstant ≤ midnight ∧ midnight ≤ endInstant then
    { date := day, value := value, intensity := 0 }
  else if endInstant < midnight then
    { date := day, value := 0, intensity := 0 }
  else
    { date := day, value := 0, intensity := -1 }

/-- One week of cells plus the hasValidDay flag of the source loop. -/
def buildWeekPair (index : ActivityIndex) (metric : HeatmapMetric)
    (startInstant endInstant : Int) (weekStart : Int) : List Cell × Bool :=
  ((List.range 7).map
     (fun (i : Nat) => cellFor index metric startInstant endInstant (weekStart + (i : Int))),
   (List.range 7).any (fun (i : Nat) =>
     decide (startInstant ≤ (weekStart + (i : Int)) * secPerDay ∧
       (weekStart + (i : Int)) * secPerDay ≤ endInstant)))

/-- Number of week rows the while loop of buildCellGrid visits: week
starts run from startOfWeek(startDate) to startOfWeek(endDate) in steps
of 7. -/
def numWeeks (startInstant endInstant : Int) : Nat :=
  ((startOfWeekDay (dayOfInstant endInstant) - startOfWeekDay (dayOfInstant startInstant)) / 7
    + 1).toNat

/-- All candidate weeks of buildCellGrid before the terminal-width clip
(heatmap-renderer.ts lines 95-156): build every week from the week of
startDate to the week of endDate and keep those with at least one valid
day. -/
def buildCellGridAll (index : ActivityIndex) (metric : HeatmapMetric)
    (startInstant endInstant : Int) : List (List Cell) :=
  let gridStart := startOfWeekDay (dayOfInstant startInstant)
  (((List.range (numWeeks startInstant endInstant)).map
      (fun (w : Nat) =>
        buildWeekPair index metric startInstant endInstant (gridStart + 7 * (w : Int)))).filter
    (fun p => p.2)).map (fun p => p.1)

/-- Column budget from the terminal width (heatmap-renderer.ts line 86). -/
def maxWeeksForWidth (terminalWidth : Nat) : Nat := (terminalWidth - 4) / 2

/-- buildCellGrid (heatmap-renderer.ts lines 75-167): cap the number of
weeks at the width budget, keeping the most recent ones. -/
def buildCellGrid (index : ActivityIndex) (metric : HeatmapMetric)
    (terminalWidth : Nat) (startInstant endInstant : Int) : List (List Cell) :=
  let allWeeks := buildCellGridAll index metric startInstant endInstant
  let weeksToShow := min allWeeks.length (maxWeeksForWidth terminalWidth)
  if weeksToShow < allWeeks.length then
    allWeeks.drop (allWeeks.length - weeksToShow)
  else
    allWeeks

/-- Value collection of calculateIntensityLevels (heatmap-renderer.ts
lines 170-178): push the value of every cell with intensity other than
-1 and positive value, in traversal order. -/
def collectValues (grid : List (List Cell)) : List Nat :=
  grid.foldl
    (fun acc week =>
      week.foldl
        (fun acc c => if c.intensity ≠ -1 ∧ 0 < c.value then acc ++ [c.value] else acc)
        acc)
    []

/-- Intensity assignment of one cell (heatmap-renderer.ts lines 189-205),
given the three quartile breakpoints. -/
def classifyCell (q1 q2 q3 : Nat) (c : Cell) : Cell :=
  if c.intensity = -1 then c
  else if c.value = 0 then { c with intensity := 0 }
  else if c.value ≤ q1 then { c with intensity := 1 }
  else if c.value ≤ q2 then { c with intensity := 2 }
  else if c.value ≤ q3 then { c with intensity := 3 }
  else { c with intensity := 4 }

/-- calculateIntensityLevels (heatmap-renderer.ts lines 169-207).  The
array sort with the numeric comparator is an ascending sort; the float
products length * 0.25, * 0.5, * 0.75 are exact dyadic products, so
Math.floor of them is natural division by 4, 2, and 4 of length, 2 *
length, 3 * length. -/
def calculateIntensityLevels (grid : List (List Cell)) : List (List Cell) :=
  let values := List.insertionSort (· ≤ ·) (collectValues grid)
  if values.length = 0 then grid
  else
    let q1 := values.getD (values.length / 4) 0
    let q2 := values.getD (values.length / 2) 0
    let q3 := values.getD (3 * values.length / 4) 0
    grid.map (fun week => week.map (classifyCell q1 q2 q3))

/-! ## Stats (heatmap-renderer.ts, renderStats) -/

/-- isConsecutive (heatmap-renderer.ts lines 388-394): the two ISO keys
parse to UTC midnights, so the millisecond difference is an exact
multiple of a day and the ceiling of its absolute day count is the
absolute day difference. -/
def isConsecutive (d1 d2 : Int) : Bool := (d2 - d1).natAbs = 1

/-- Loop state of renderStats (heatmap-renderer.ts lines 320-325). -/
structure StatsAccum where
  totalDays : Nat
  totalValue : Nat
  maxValue : Nat
  tempStreak : Nat
  longestStreak : Nat
deriving DecidableEq

/-- The stats loop (heatmap-renderer.ts lines 331-363).  prev is
sortedDates[i - 1] (none at i = 0); note it advances on every key,
active or not. -/
def statsGo (value : Int → Nat) : Option Int → StatsAccum → List Int → StatsAccum
  | _, st, [] => st
  | prev, st, d :: rest =>
    let v := value d
    if 0 < v then
      let st1 := { st with
        totalDays := st.totalDays + 1
        totalValue := st.totalValue + v
        maxValue := max st.maxValue v }
      match prev with
      | none => statsGo value (some d) { st1 with tempStreak := st1.tempStreak + 1 } rest
      | some p =>
        if isConsecutive p d then
          statsGo value (some d) { st1 with tempStreak := st1.tempStreak + 1 } rest
        else
          statsGo value (some d)
            { st1 with longestStreak := max st1.longestStreak st1.tempStreak
                       tempStreak := 1 } rest
    else
      statsGo value (some d)
        { st with longestStreak := max st.longestStreak st.tempStreak
                  tempStreak := 0 } rest

/-- Result of renderStats (the computed statistics, formatting aside). -/
structure Stats where
  activeDays : Nat
  totalValue : Nat
  maxValue : Nat
  currentStreak : Nat
  longestStreak : Nat
deriving DecidableEq

/-- Metric value renderStats reads for a date key; every sorted key is in
the map, so the default accumulator is never actually consulted. -/
def statsValue (activityData : ActivityIndex) (metric : HeatmapMetric) (d : Int) : Nat :=
  metricValue metric ((List.lookup d activityData).getD (emptyDaily d))

/-- renderStats (heatmap-renderer.ts lines 319-386): sort the keys
(lexicographic on ISO strings = numeric on day numbers), run the loop,
then report the trailing tempStreak as the current streak only when the
map has a key for today or yesterday, and fold the trailing run into the
longest streak. -/
def renderStats (activityData : ActivityIndex) (metric : HeatmapMetric)
    (today : Int) : Stats :=
  let sortedDates := List.insertionSort (· ≤ ·) (activityData.map Prod.fst)
  let st := statsGo (statsValue activityData metric) none
    { totalDays := 0, totalValue := 0, maxValue := 0, tempStreak := 0, longestStreak := 0 }
    sortedDates
  let yesterday := today - 1
  { activeDays := st.totalDays
    totalValue := st.totalValue
    maxValue := st.maxValue
    currentStreak :=
      if sortedDates.contains today || sortedDates.contains yesterday then st.tempStreak
      else 0
    longestStreak := max st.longestStreak st.tempStreak }

/-! ## Auxiliary views of the aggregation used to state order independence -/

/-- One aggregation step, viewed over (project, session, line) work items. -/
def itemStep (cutoff : Int) (m : ActivityIndex) (it : String × String × Line) :
    ActivityIndex :=
  processLine cutoff it.1 it.2.1 m it.2.2

/-- The work items one session file contributes: nothing when unreadable,
one item per line otherwise, tagged with the project and the session id
derived from the file name. -/
def fileItems (project : String) (f : String × FileContent) :
    List (String × String × Line) :=
  match f.2 with
  | .unreadable => []
  | .lines ls => ls.map (fun l => (project, removeFirst f.1 ".jsonl", l))

/-- Folding a flat list of work items into an empty map: the whole
aggregation run, flattened to line granularity. -/
def aggregateItems (cutoff : Int) (items : List (String × String × Line)) :
    ActivityIndex :=
  items.foldl (itemStep cutoff) []

/-- Observational equality of two activity maps: every date key holds
the same accumulator (same sessions, interactions, tokens). -/
def mapEquiv (m₁ m₂ : ActivityIndex) : Prop :=
  ∀ k, List.lookup k m₁ = List.lookup k m₂

/-! ## Spec-side definitions (written from the specification's wording,
for comparison with the source embeddings above) -/

/-- Insert a value into an ascending list, keeping it ascending. -/
def insertSortedNat (v : Nat) : List Nat → List Nat
  | [] => [v]
  | x :: xs => if v ≤ x then v :: x :: xs else x :: insertSortedNat v xs

/-- Ascending sort by repeated insertion (spec: sort ascending). -/
def sortAsc (l : List Nat) : List Nat := l.foldr insertSortedNat []

/-- Spec wording of the level assignment: value 0 gives level 0, value at
most Q1 gives 1, at most Q2 gives 2, at most Q3 gives 3, else 4; a tie at
a breakpoint falls to the lower level because the comparison is an
inclusive upper bound. -/
def specLevel (q1 q2 q3 : Nat) (v : Nat) : Int :=
  if v = 0 then 0
  else if v ≤ q1 then 1
  else if v ≤ q2 then 2
  else if v ≤ q3 then 3
  else 4

/-- Spec wording of the value collection: all positive values of cells
whose intensity is not -1. -/
def specPositiveValues (grid : List (List Cell)) : List Nat :=
  (grid.flatten.filter (fun c => decide (c.intensity ≠ -1) && decide (0 < c.value))).map
    Cell.value

/-- The intensity classifier as the specification words it: collect the
positive in-range values, sort ascending, take breakpoints at indexes
floor of length times 0.25, 0.5, 0.75, and reassign every cell whose
intensity is not -1; when no positive values exist the grid is left as
it is. -/
def specClassify (grid : List (List Cell)) : List (List Cell) :=
  let sorted := sortAsc (specPositiveValues grid)
  if sorted.length = 0 then grid
  else
    let q1 := sorted.getD (sorted.length / 4) 0
    let q2 := sorted.getD (sorted.length / 2) 0
    let q3 := sorted.getD (3 * sorted.length / 4) 0
    grid.map (fun week => week.map (fun c =>
      if c.intensity = -1 then c else { c with intensity := specLevel q1 q2 q3 c.value }))

/-- Lengths of the maximal runs of calendar-consecutive dates in an
ascending date list (spec: a run is broken exactly when the gap between
successive dates differs from one day). -/
def runLengths : List Int → List Nat
  | [] => []
  | [_] => [1]
  | d :: d' :: rest =>
    let r := runLengths (d' :: rest)
    if d' = d + 1 then (r.headD 0 + 1) :: r.tail else 1 :: r

/-- Maximum of a list of run lengths (0 when there are none). -/
def listMax (l : List Nat) : Nat := l.foldr max 0

/-- The sorted keys renderStats iterates over. -/
def sortedDatesOf (m : ActivityIndex) : List Int :=
  List.insertionSort (· ≤ ·) (m.map Prod.fst)

/-- The ascending list of active dates (positive metric value) of an
activity map -- the list whose maximal consecutive runs the spec's streak
definitions speak about. -/
def activeDates (m : ActivityIndex) (metric : HeatmapMetric) : List Int :=
  (sortedDatesOf m).filter (fun d => decide (0 < statsValue m metric d))

/-- Run lengths of an active-date list, as continued from a pending run:
a pending run of positive length temp ending at date p merges with the
first run when that run starts at p + 1; otherwise the pending length
stands on its own ahead of the runs.  This is the invariant shape of the
renderStats loop state. -/
def mergedRuns (temp : Nat) (p : Int) (A : List Int) : List Nat :=
  match A with
  | [] => [temp]
  | a :: _ =>
    if 0 < temp ∧ a = p + 1 then (temp + (runLengths A).headD 0) :: (runLengths A).tail
    else temp :: runLengths A

/-- Closed form of the tempStreak field of the renderStats loop, given a
pending run of length temp ending at the previously seen date p: the last
run length when the final date is active, 0 when it is inactive, the
pending length when there are no dates left. -/
def tailSpec (value : Int → Nat) (temp : Nat) (p : Int) (l : List Int) : Nat :=
  match l.getLast? with
  | none => temp
  | some d =>
    if 0 < value d then
      (mergedRuns temp p (l.filter (fun x => decide (0 < value x)))).getLastD 0
    else 0

/-- Closed form of the run maximum accumulated by the renderStats loop
from a pending run of length temp ending at p. -/
def runsSpec (value : Int → Nat) (temp : Nat) (p : Int) (l : List Int) : Nat :=
  listMax (mergedRuns temp p (l.filter (fun x => decide (0 < value x))))

/-- The length of the trailing maximal run of consecutive active dates,
taken as 0 when the most recent date of the list is inactive. -/
def streakTail (value : Int → Nat) (l : List Int) : Nat :=
  match l.getLast? with
  | none => 0
  | some d =>
    if 0 < value d then
      (runLengths (l.filter (fun x => decide (0 < value x)))).getLastD 0
    else 0

/-- The maximum run length over the active dates of a date list. -/
def runsMax (value : Int → Nat) (l : List Int) : Nat :=
  listMax (runLengths (l.filter (fun x => decide (0 < value x))))

/-! # Theorems -/

/-- Map.get after Map.set: the written key reads the written value, any
other key is untouched. -/
theorem lookup_setKey (m : ActivityIndex) (k k' : Int) (v : DailyActivity) :
    List.lookup k (setKey m k' v) = if k = k' then some v else List.lookup k m := by
  induction m with
  | nil =>
    by_cases h : k = k'
    · simp [setKey, List.lookup, h]
    · have hb : (k == k') = false := by simp [h]
      simp [setKey, List.lookup, h, hb]
  | cons hd tl ih =>
    obtain ⟨k₀, v₀⟩ := hd
    by_cases h0 : k₀ = k'
    · subst h0
      by_cases h : k = k₀
      · simp [setKey, List.lookup, h]
      · have hb : (k == k₀) = false := by simp [h]
        simp [setKey, List.lookup, h, hb]
    · by_cases h : k = k₀
      · subst h
        simp [setKey, h0, List.lookup, Ne.symm h0]
      · have hb : (k == k₀) = false := by simp [h]
        simp [setKey, h0, List.lookup, hb, ih]

/-- A parsed line whose timestamp is invalid leaves the map untouched. -/
theorem processLine_invalidTimestamp (cutoff : Int) (p s : String)
    (m : ActivityIndex) (e : UsageEntry) (h : e.timestamp = none) :
    processLine cutoff p s m (Line.parsed e) = m := by
  simp [processLine, h]

/-- A parsed line with a valid timestamp at or after the cutoff updates
the accumulator of the record's UTC day in place. -/
theorem processLine_current (cutoff : Int) (p s : String)
    (m : ActivityIndex) (e : UsageEntry) (t : Int)
    (h : e.timestamp = some t) (hge : ¬ t < cutoff) :
    processLine cutoff p s m (Line.parsed e) =
      setKey m (dayOfInstant t)
        (applyEntry p s e
          ((List.lookup (dayOfInstant t) m).getD (emptyDaily (dayOfInstant t)))) := by
  simp [processLine, h, hge]

/-- A parsed line strictly older than the cutoff leaves the map
untouched. -/
theorem processLine_old (cutoff : Int) (p s : String)
    (m : ActivityIndex) (e : UsageEntry) (t : Int)
    (h : e.timestamp = some t) (hlt : t < cutoff) :
    processLine cutoff p s m (Line.parsed e) = m := by
  simp [processLine, h, hlt]

/-- C10: a log line that parses as JSON but whose timestamp is missing or
invalid is silently skipped: it contributes no session id, interaction or
tokens to any day, and the remaining lines of the file are still
processed (the file's result is as if the line were absent). -/
theorem claim_C10 : ∀ (cutoff : Int) (p s : String) (m : ActivityIndex)
    (pre post : List Line) (e : UsageEntry), e.timestamp = none →
    processLines cutoff p s m (pre ++ Line.parsed e :: post) =
      processLines cutoff p s m (pre ++ post) := by
  intro cutoff p s m pre post e h
  simp [processLines, List.foldl_append, List.foldl_cons,
    processLine_invalidTimestamp cutoff p s _ e h]

/-- C8: a qualifying record updates its UTC day's accumulator by adding
the project/session id to the session set, incrementing the interaction
counter by 1, and adding its token sum; the token sum of the payload
with input 100, output 200, cache creation 0, cache read 5 is exactly
305; absent sub-counters contribute 0; and a record with no usage
payload at all contributes 0 tokens (while the same update still adds
its session id and interaction). -/
theorem claim_C8 :
    (∀ (cutoff : Int) (p s : String) (m : ActivityIndex) (e : UsageEntry) (t : Int),
      e.timestamp = some t → cutoff ≤ t →
      List.lookup (dayOfInstant t) (processLine cutoff p s m (Line.parsed e)) =
        some (applyEntry p s e
          ((List.lookup (dayOfInstant t) m).getD (emptyDaily (dayOfInstant t)))))
    ∧ (∀ (p s : String) (e : UsageEntry) (a : DailyActivity),
        (applyEntry p s e a).tokens = a.tokens + tokensOfEntry e
        ∧ (applyEntry p s e a).interactions = a.interactions + 1
        ∧ (applyEntry p s e a).sessions = insert (p ++ "/" ++ s) a.sessions)
    ∧ tokensOfEntry ⟨some 0, some ⟨some ⟨some 100, some 200, some 0, some 5⟩⟩⟩ = 305
    ∧ (∀ (ts : Option Int) (i o : Nat),
        tokensOfEntry ⟨ts, some ⟨some ⟨some i, some o, none, none⟩⟩⟩ = i + o)
    ∧ (∀ ts : Option Int, tokensOfEntry ⟨ts, none⟩ = 0) := by
  refine ⟨?_, ?_, by decide, ?_, ?_⟩
  · intro cutoff p s m e t h hge
    rw [processLine_current cutoff p s m e t h (by omega), lookup_setKey]
    simp
  · intro p s e a
    exact ⟨rfl, rfl, rfl⟩
  · intro ts i o
    simp [tokensOfEntry]
  · intro ts
    rfl

/-- Witness for C8 at a concrete qualifying record with the 305-token
payload on a day that already holds an accumulator. -/
theorem claim_C8_witness :
    ((⟨some (19783 * 86400), some ⟨some ⟨some 100, some 200, some 0, some 5⟩⟩⟩ :
        UsageEntry).timestamp = some (19783 * 86400))
    ∧ ((19783 * 86400 : Int) - 86400 ≤ 19783 * 86400)
    ∧ List.lookup (dayOfInstant (19783 * 86400))
        (processLine (19783 * 86400 - 86400) "p" "s"
          [(19783, ⟨19783, {"q/r"}, 2, 40⟩)]
          (Line.parsed
            ⟨some (19783 * 86400), some ⟨some ⟨some 100, some 200, some 0, some 5⟩⟩⟩)) =
      some (applyEntry "p" "s"
        ⟨some (19783 * 86400), some ⟨some ⟨some 100, some 200, some 0, some 5⟩⟩⟩
        ((List.lookup (dayOfInstant (19783 * 86400))
            [(19783, ⟨19783, {"q/r"}, 2, 40⟩)]).getD
          (emptyDaily (dayOfInstant (19783 * 86400))))) :=
  ⟨rfl, by decide,
   claim_C8.1 (19783 * 86400 - 86400) "p" "s"
     [(19783, ⟨19783, {"q/r"}, 2, 40⟩)]
     ⟨some (19783 * 86400), some ⟨some ⟨some 100, some 200, some 0, some 5⟩⟩⟩
     (19783 * 86400) rfl (by decide)⟩

/-- C6 (amended): an unreadable session file is skipped silently and its
sibling files are still processed; a root directory that cannot be
listed is skipped whole and the other roots are still processed; a
non-directory entry is skipped and its siblings are still processed.
However, a project entry whose stat or readdir call throws aborts the
remaining project entries of that root (the results accumulated up to
that point, including other roots, are kept and returned); no failure
aborts the whole run. -/
theorem claim_C6 :
    (∀ (cutoff : Int) (proj : String) (m : ActivityIndex)
        (fs₁ fs₂ : List (String × FileContent)) (name : String),
      processProject cutoff proj m (fs₁ ++ (name, FileContent.unreadable) :: fs₂) =
        processProject cutoff proj m (fs₁ ++ fs₂))
    ∧ (∀ (roots₁ roots₂ : List (Option (List ProjectEntry))) (days : Nat) (now : Int),
        loadUsageData (roots₁ ++ none :: roots₂) days now =
          loadUsageData (roots₁ ++ roots₂) days now)
    ∧ (∀ (cutoff : Int) (m : ActivityIndex) (ps₁ ps₂ : List ProjectEntry) (name : String),
        processProjects cutoff m (ps₁ ++ ProjectEntry.listError name :: ps₂) =
          processProjects cutoff m ps₁)
    ∧ (∀ (cutoff : Int) (m : ActivityIndex) (ps₁ ps₂ : List ProjectEntry) (name : String),
        processProjects cutoff m (ps₁ ++ ProjectEntry.statError name :: ps₂) =
          processProjects cutoff m ps₁)
    ∧ (∀ (cutoff : Int) (m : ActivityIndex) (ps₁ ps₂ : List ProjectEntry) (name : String),
        processProjects cutoff m (ps₁ ++ ProjectEntry.notDir name :: ps₂) =
          processProjects cutoff m (ps₁ ++ ps₂)) := by
  refine ⟨?_, ?_, ?_, ?_, ?_⟩
  · intro cutoff proj m fs₁ fs₂ name
    by_cases h : nameEndsWith name ".jsonl" = true
    · simp [processProject, List.filter_append, List.filter_cons, h,
        List.foldl_append, processJsonlFile]
    · simp [processProject, List.filter_append, List.filter_cons, h]
  · intro roots₁ roots₂ days now
    simp [loadUsageData, List.foldl_append, processDirectory]
  · intro cutoff m ps₁ ps₂ name
    induction ps₁ generalizing m with
    | nil => rfl
    | cons a rest ih => cases a <;> simp [processProjects, ih]
  · intro cutoff m ps₁ ps₂ name
    induction ps₁ generalizing m with
    | nil => rfl
    | cons a rest ih => cases a <;> simp [processProjects, ih]
  · intro cutoff m ps₁ ps₂ name
    induction ps₁ generalizing m with
    | nil => rfl
    | cons a rest ih => cases a <;> simp [processProjects, ih]

/-- Counterexample for C6 as stated: with three sibling project entries
A, B, C under one root where B's readdir throws, project A's record is
aggregated but project C's is not -- the run without B shows C's file
contributes a second session and interaction, so C was a readable
sibling that the failure at B silenced. -/
theorem claim_C6_counterexample :
    List.lookup 19813
        (loadUsageData
          [some
            [ProjectEntry.proj "A"
              [("sA.jsonl", FileContent.lines [Line.parsed ⟨some (19813 * 86400), none⟩])],
             ProjectEntry.listError "B",
             ProjectEntry.proj "C"
              [("sC.jsonl", FileContent.lines [Line.parsed ⟨some (19813 * 86400), none⟩])]]]
          30 (19813 * 86400)) = some ⟨19813, {"A/sA"}, 1, 0⟩
    ∧ List.lookup 19813
        (loadUsageData
          [some
            [ProjectEntry.proj "A"
              [("sA.jsonl", FileContent.lines [Line.parsed ⟨some (19813 * 86400), none⟩])],
             ProjectEntry.proj "C"
              [("sC.jsonl", FileContent.lines [Line.parsed ⟨some (19813 * 86400), none⟩])]]]
          30 (19813 * 86400)) = some ⟨19813, {"C/sC", "A/sA"}, 2, 0⟩ := by
  exact ⟨by decide, by decide⟩

/-- C1 (amended): the window cutoff is the instant now minus windowDays
times 86400 seconds, where now is the instant the run starts -- so a
record is counted exactly when its timestamp is at or after that
instant, and the cutoff moves with the run's time of day.  When the run
starts exactly at midnight UTC the spec example holds: with windowDays
30 and a run starting 2024-03-31T00:00:00Z (epoch day 19813), the record
at 2024-03-01T00:00:00Z (epoch day 19783) is counted and the record at
2024-02-29T23:59:59Z is not. -/
theorem claim_C1 :
    (∀ (days : Nat) (now t : Int) (p fname : String) (e : UsageEntry),
      e.timestamp = some t → nameEndsWith fname ".jsonl" = true →
      (List.lookup (dayOfInstant t)
          (loadUsageData [some [ProjectEntry.proj p [(fname, FileContent.lines [Line.parsed e])]]]
            days now) ≠ none
        ↔ now - (days : Int) * secPerDay ≤ t))
    ∧ List.lookup 19783
        (loadUsageData
          [some [ProjectEntry.proj "p"
            [("s.jsonl", FileContent.lines [Line.parsed ⟨some (19783 * 86400), none⟩])]]]
          30 (19813 * 86400)) = some ⟨19783, {"p/s"}, 1, 0⟩
    ∧ List.lookup 19782
        (loadUsageData
          [some [ProjectEntry.proj "p"
            [("s.jsonl", FileContent.lines [Line.parsed ⟨some (19783 * 86400 - 1), none⟩])]]]
          30 (19813 * 86400)) = none := by
  refine ⟨?_, by decide, by decide⟩
  intro days now t p fname e hts hf
  simp only [loadUsageData, List.foldl_cons, List.foldl_nil, processDirectory,
    processProjects, processProject, List.filter_cons, hf, if_pos, List.filter_nil,
    processJsonlFile, processLines]
  by_cases hlt : t < now - (days : Int) * secPerDay
  · rw [processLine_old _ _ _ _ _ _ hts hlt]
    simp [List.lookup]
    omega
  · rw [processLine_current _ _ _ _ _ _ hts hlt]
    simp [setKey, List.lookup]
    omega

/-- Witness for C1 at the spec's own example run starting exactly at
midnight UTC. -/
theorem claim_C1_witness :
    ((⟨some (19783 * 86400), none⟩ : UsageEntry).timestamp = some (19783 * 86400))
    ∧ (nameEndsWith "s.jsonl" ".jsonl" = true)
    ∧ (List.lookup (dayOfInstant (19783 * 86400))
          (loadUsageData
            [some [ProjectEntry.proj "p"
              [("s.jsonl", FileContent.lines [Line.parsed ⟨some (19783 * 86400), none⟩])]]]
            30 (19813 * 86400)) ≠ none
        ↔ (19813 * 86400 : Int) - (30 : Nat) * secPerDay ≤ 19783 * 86400) :=
  ⟨rfl, by decide,
   claim_C1.1 30 (19813 * 86400) (19783 * 86400) "p" "s.jsonl"
     ⟨some (19783 * 86400), none⟩ rfl (by decide)⟩

/-- Counterexample for C1 as stated: the same aggregation run started
one hour after midnight (today still 2024-03-31) excludes the record
timestamped 2024-03-01T00:00:00Z, because the instant-based cutoff has
moved to 2024-03-01T01:00:00Z -- so inclusion of the cutoff-day record is
not independent of the time of day at which the run starts. -/
theorem claim_C1_counterexample :
    dayOfInstant (19813 * 86400 + 3600) = 19813
    ∧ List.lookup 19783
        (loadUsageData
          [some [ProjectEntry.proj "p"
            [("s.jsonl", FileContent.lines [Line.parsed ⟨some (19783 * 86400), none⟩])]]]
          30 (19813 * 86400 + 3600)) = none := by
  exact ⟨by decide, by decide⟩

/-- Every line either leaves any map untouched (malformed, invalid
timestamp, or older than the cutoff) or is an effective update. -/
theorem processLine_classify (c : Int) (p s : String) (l : Line) :
    (∀ m, processLine c p s m l = m) ∨
      ∃ e t, l = Line.parsed e ∧ e.timestamp = some t ∧ ¬ t < c := by
  cases l with
  | malformed => exact Or.inl fun m => rfl
  | parsed e =>
    cases hts : e.timestamp with
    | none => exact Or.inl fun m => processLine_invalidTimestamp _ _ _ _ _ hts
    | some t =>
      by_cases hlt : t < c
      · exact Or.inl fun m => processLine_old _ _ _ _ _ _ hts hlt
      · exact Or.inr ⟨e, t, rfl, hts, hlt⟩

/-- Applying two records to one day accumulator commutes: session-set
insertion, the interaction counter and the token sum are all
order-insensitive. -/
theorem applyEntry_comm (p₁ s₁ : String) (e₁ : UsageEntry) (p₂ s₂ : String)
    (e₂ : UsageEntry) (a : DailyActivity) :
    applyEntry p₁ s₁ e₁ (applyEntry p₂ s₂ e₂ a) =
      applyEntry p₂ s₂ e₂ (applyEntry p₁ s₁ e₁ a) := by
  cases a
  simp [applyEntry, Finset.Insert.comm, Nat.add_right_comm]

/-- One aggregation step respects observational equality of maps. -/
theorem itemStep_congr (c : Int) (it : String × String × Line) {m₁ m₂ : ActivityIndex}
    (h : mapEquiv m₁ m₂) : mapEquiv (itemStep c m₁ it) (itemStep c m₂ it) := by
  obtain ⟨p, s, l⟩ := it
  rcases processLine_classify c p s l with hid | ⟨e, t, rfl, hts, hge⟩
  · intro k
    simp only [itemStep]
    rw [hid, hid]
    exact h k
  · intro k
    simp only [itemStep]
    rw [processLine_current c p s m₁ e t hts hge,
      processLine_current c p s m₂ e t hts hge, lookup_setKey, lookup_setKey, h, h]

/-- Two aggregation steps commute up to observational equality of the
resulting maps. -/
theorem itemStep_swap (c : Int) (a b : String × String × Line) (m : ActivityIndex) :
    mapEquiv (itemStep c (itemStep c m a) b) (itemStep c (itemStep c m b) a) := by
  obtain ⟨p₁, s₁, l₁⟩ := a
  obtain ⟨p₂, s₂, l₂⟩ := b
  rcases processLine_classify c p₁ s₁ l₁ with h₁ | ⟨e₁, t₁, rfl, hts₁, hge₁⟩
  · intro k
    simp only [itemStep]
    rw [h₁, h₁]
  · rcases processLine_classify c p₂ s₂ l₂ with h₂ | ⟨e₂, t₂, rfl, hts₂, hge₂⟩
    · intro k
      simp only [itemStep]
      rw [h₂, h₂]
    · intro k
      simp only [itemStep]
      rw [processLine_current c p₁ s₁ m e₁ t₁ hts₁ hge₁,
        processLine_current c p₂ s₂ m e₂ t₂ hts₂ hge₂,
        processLine_current c p₂ s₂ _ e₂ t₂ hts₂ hge₂,
        processLine_current c p₁ s₁ _ e₁ t₁ hts₁ hge₁]
      simp only [lookup_setKey]
      by_cases h2 : k = dayOfInstant t₂ <;> by_cases h1 : k = dayOfInstant t₁
      · have hk : dayOfInstant t₂ = dayOfInstant t₁ := by omega
        simp [h1, h2, hk, applyEntry_comm]
      · have hk : ¬ dayOfInstant t₂ = dayOfInstant t₁ := by omega
        simp [h1, h2, hk]
      · have hk : ¬ dayOfInstant t₁ = dayOfInstant t₂ := by omega
        simp [h1, h2, hk]
      · simp [h1, h2]

/-- Folding the same items preserves observational equality. -/
theorem foldl_itemStep_congr (c : Int) (l : List (String × String × Line)) :
    ∀ {m₁ m₂ : ActivityIndex}, mapEquiv m₁ m₂ →
      mapEquiv (l.foldl (itemStep c) m₁) (l.foldl (itemStep c) m₂) := by
  induction l with
  | nil => exact fun h => h
  | cons a rest ih => exact fun h => ih (itemStep_congr c a h)

/-- A pending step can be pushed past a fold, up to observational
equality. -/
theorem foldl_itemStep_move (c : Int) (l : List (String × String × Line)) :
    ∀ (a : String × String × Line) (m : ActivityIndex),
      mapEquiv (l.foldl (itemStep c) (itemStep c m a))
        (itemStep c (l.foldl (itemStep c) m) a) := by
  induction l with
  | nil => exact fun a m k => rfl
  | cons b rest ih =>
    intro a m k
    exact (foldl_itemStep_congr c rest (itemStep_swap c a b m) k).trans
      (ih a (itemStep c m b) k)

/-- Folding a permuted item list yields an observationally equal map. -/
theorem foldl_itemStep_perm (c : Int) {l₁ l₂ : List (String × String × Line)}
    (h : l₁.Perm l₂) : ∀ m : ActivityIndex,
      mapEquiv (l₁.foldl (itemStep c) m) (l₂.foldl (itemStep c) m) := by
  induction h with
  | nil => exact fun m k => rfl
  | cons a _ ih => exact fun m => ih (itemStep c m a)
  | swap a b rest => exact fun m => foldl_itemStep_congr c rest (itemStep_swap c b a m)
  | trans _ _ ih₁ ih₂ => exact fun m k => (ih₁ m k).trans (ih₂ m k)

/-- processLines is the item fold over the file's lines tagged with its
project and session. -/
theorem processLines_eq_items (c : Int) (p s : String) (m : ActivityIndex)
    (ls : List Line) :
    processLines c p s m ls = (ls.map (fun l => (p, s, l))).foldl (itemStep c) m := by
  simp only [processLines, List.foldl_map]
  rfl

/-- The file loop is the item fold over the concatenated per-file items. -/
theorem filesFold_eq_items (c : Int) (p : String) (gs : List (String × FileContent)) :
    ∀ m : ActivityIndex,
      gs.foldl (fun acc f => processJsonlFile c p (removeFirst f.1 ".jsonl") acc f.2) m =
        ((gs.map (fileItems p)).flatten).foldl (itemStep c) m := by
  induction gs with
  | nil => exact fun m => rfl
  | cons f rest ih =>
    intro m
    obtain ⟨nm, content⟩ := f
    have step : processJsonlFile c p (removeFirst nm ".jsonl") m content =
        (fileItems p (nm, content)).foldl (itemStep c) m := by
      cases content with
      | unreadable => rfl
      | lines ls => exact processLines_eq_items c p (removeFirst nm ".jsonl") m ls
    calc
      List.foldl (fun acc f => processJsonlFile c p (removeFirst f.1 ".jsonl") acc f.2) m
          ((nm, content) :: rest)
          = List.foldl (fun acc f => processJsonlFile c p (removeFirst f.1 ".jsonl") acc f.2)
              (processJsonlFile c p (removeFirst nm ".jsonl") m content) rest := rfl
      _ = List.foldl (fun acc f => processJsonlFile c p (removeFirst f.1 ".jsonl") acc f.2)
              ((fileItems p (nm, content)).foldl (itemStep c) m) rest := by rw [step]
      _ = ((rest.map (fileItems p)).flatten).foldl (itemStep c)
              ((fileItems p (nm, content)).foldl (itemStep c) m) := ih _
      _ = ((((nm, content) :: rest).map (fileItems p)).flatten).foldl (itemStep c) m := by
            rw [List.map_cons, List.flatten_cons, List.foldl_append]

/-- processProject, flattened to line granularity. -/
theorem processProject_eq_items (c : Int) (p : String) (m : ActivityIndex)
    (fs : List (String × FileContent)) :
    processProject c p m fs =
      (((fs.filter (fun f => nameEndsWith f.1 ".jsonl")).map (fileItems p)).flatten).foldl
        (itemStep c) m :=
  filesFold_eq_items c p _ m

/-- C9: the activity map produced by aggregation is invariant, date key
by date key (same session-id set, interaction count and token total),
under any permutation of the order in which the flattened line items are
processed, and likewise under any permutation of the session files of a
project. -/
theorem claim_C9 :
    (∀ (cutoff : Int) (items₁ items₂ : List (String × String × Line)),
      items₁.Perm items₂ →
      ∀ k, List.lookup k (aggregateItems cutoff items₁) =
        List.lookup k (aggregateItems cutoff items₂))
    ∧ (∀ (cutoff : Int) (project : String) (m : ActivityIndex)
        (fs₁ fs₂ : List (String × FileContent)), fs₁.Perm fs₂ →
        ∀ k, List.lookup k (processProject cutoff project m fs₁) =
          List.lookup k (processProject cutoff project m fs₂)) := by
  constructor
  · intro cutoff items₁ items₂ h k
    exact foldl_itemStep_perm cutoff h [] k
  · intro cutoff project m fs₁ fs₂ h k
    rw [processProject_eq_items, processProject_eq_items]
    exact foldl_itemStep_perm cutoff
      (((h.filter (fun f => nameEndsWith f.1 ".jsonl")).map (fileItems project)).flatten) m k

/-- Witness for C9: two concrete work items and two concrete session
files, processed in both orders, observed at the day key of the first
record. -/
theorem claim_C9_witness :
    (([(("a", "x", Line.parsed ⟨some 100, none⟩)),
       (("b", "y", Line.parsed ⟨some 200000, none⟩))] :
        List (String × String × Line)).Perm
      [(("b", "y", Line.parsed ⟨some 200000, none⟩)),
       (("a", "x", Line.parsed ⟨some 100, none⟩))])
    ∧ List.lookup 0
        (aggregateItems 0
          [(("a", "x", Line.parsed ⟨some 100, none⟩)),
           (("b", "y", Line.parsed ⟨some 200000, none⟩))]) =
      List.lookup 0
        (aggregateItems 0
          [(("b", "y", Line.parsed ⟨some 200000, none⟩)),
           (("a", "x", Line.parsed ⟨some 100, none⟩))]) :=
  ⟨by decide,
   claim_C9.1 0
     [(("a", "x", Line.parsed ⟨some 100, none⟩)),
      (("b", "y", Line.parsed ⟨some 200000, none⟩))]
     [(("b", "y", Line.parsed ⟨some 200000, none⟩)),
      (("a", "x", Line.parsed ⟨some 100, none⟩))]
     (by decide) 0⟩

/-- Witness for C10 at a concrete file: a malformed line, an invalid
timestamp line, and a valid line. -/
theorem claim_C10_witness :
    (({ timestamp := none, message := none } : UsageEntry).timestamp = none)
    ∧ processLines 0 "p" "s" []
        [Line.malformed, Line.parsed { timestamp := none, message := none },
         Line.parsed { timestamp := some 0, message := none }] =
      processLines 0 "p" "s" []
        [Line.malformed, Line.parsed { timestamp := some 0, message := none }] :=
  ⟨rfl,
   claim_C10 0 "p" "s" [] [Line.malformed]
     [Line.parsed { timestamp := some 0, message := none }]
     { timestamp := none, message := none } rfl⟩

/-- Every branch of the cell constructor stamps the cell with its day. -/
theorem cellFor_date (index : ActivityIndex) (metric : HeatmapMetric)
    (s e day : Int) : (cellFor index metric s e day).date = day := by
  simp only [cellFor]
  split
  · rfl
  · split <;> rfl

/-- A cell strictly after the end instant takes the future branch: value
forced to 0 and intensity 0 (the empty square), not -1. -/
theorem cellFor_future (index : ActivityIndex) (metric : HeatmapMetric)
    {s e day : Int} (h : e < day * secPerDay) :
    cellFor index metric s e day = ⟨day, 0, 0⟩ := by
  have h1 : ¬ (s ≤ day * secPerDay ∧ day * secPerDay ≤ e) := by omega
  simp [cellFor, h1, h]

/-- Week starts produced by the grid loop are Sundays. -/
theorem dayOfWeekSun_gridStart (d : Int) (w : Nat) :
    dayOfWeekSun (startOfWeekDay d + 7 * (w : Int)) = 0 := by
  simp only [dayOfWeekSun, startOfWeekDay]
  omega

/-- Every week of the unclipped grid is the 7-cell week of some Sunday. -/
theorem mem_buildCellGridAll {index : ActivityIndex} {metric : HeatmapMetric}
    {s e : Int} {week : List Cell} (h : week ∈ buildCellGridAll index metric s e) :
    ∃ ws : Int, dayOfWeekSun ws = 0 ∧
      week = (List.range 7).map
        (fun (i : Nat) => cellFor index metric s e (ws + (i : Int))) := by
  simp only [buildCellGridAll, List.mem_map, List.mem_filter, List.mem_range] at h
  obtain ⟨p, ⟨⟨w, hw, hp⟩, hflag⟩, hweek⟩ := h
  refine ⟨startOfWeekDay (dayOfInstant s) + 7 * (w : Int), ?_, ?_⟩
  · simp only [dayOfWeekSun, startOfWeekDay]
    omega
  · rw [← hweek, ← hp]
    rfl

/-- The clipped grid is a suffix of the unclipped grid. -/
theorem mem_buildCellGrid_sub {index : ActivityIndex} {metric : HeatmapMetric}
    {tw : Nat} {s e : Int} {week : List Cell}
    (h : week ∈ buildCellGrid index metric tw s e) :
    week ∈ buildCellGridAll index metric s e := by
  simp only [buildCellGrid] at h
  split at h
  · exact List.mem_of_mem_drop h
  · exact h

/-- Future-day masking as the code actually performs it: any cell of the
built grid dated strictly after the end date carries value 0 and
intensity 0. -/
theorem buildCellGrid_future {index : ActivityIndex} {metric : HeatmapMetric}
    {tw : Nat} {s e : Int} {week : List Cell} {c : Cell}
    (hw : week ∈ buildCellGrid index metric tw s e) (hc : c ∈ week)
    (hfut : dayOfInstant e < c.date) : c.value = 0 ∧ c.intensity = 0 := by
  obtain ⟨ws, _, rfl⟩ := mem_buildCellGridAll (mem_buildCellGrid_sub hw)
  obtain ⟨i, hi, rfl⟩ := List.mem_map.mp hc
  rw [cellFor_date] at hfut
  have hmid : e < (ws + (i : Int)) * secPerDay := by
    simp only [dayOfInstant, secPerDay] at hfut ⊢
    omega
  rw [cellFor_future index metric hmid]
  exact ⟨rfl, rfl⟩

/-- classifyCell never moves a cell to another day. -/
theorem classifyCell_date (q1 q2 q3 : Nat) (c : Cell) :
    (classifyCell q1 q2 q3 c).date = c.date := by
  unfold classifyCell
  split
  · rfl
  · split
    · rfl
    · split
      · rfl
      · split
        · rfl
        · split <;> rfl

/-- C2 (amended): every cell of the built grid dated strictly after
today (the end date) has value 0 and intensity 0 -- an empty, uncolored
square, not the -1 marker -- regardless of any activity the index holds
for that future date, and intensity classification leaves such cells at
0 because their value is 0. -/
theorem claim_C2 :
    (∀ (index : ActivityIndex) (metric : HeatmapMetric) (tw : Nat) (s e : Int)
        (week : List Cell) (c : Cell),
      week ∈ buildCellGrid index metric tw s e → c ∈ week →
      dayOfInstant e < c.date → c.value = 0 ∧ c.intensity = 0)
    ∧ (∀ (index : ActivityIndex) (metric : HeatmapMetric) (tw : Nat) (s e : Int)
        (week : List Cell) (c : Cell),
      week ∈ calculateIntensityLevels (buildCellGrid index metric tw s e) → c ∈ week →
      dayOfInstant e < c.date → c.value = 0 ∧ c.intensity = 0) := by
  constructor
  · intro index metric tw s e week c hw hc hfut
    exact buildCellGrid_future hw hc hfut
  · intro index metric tw s e week c hw hc hfut
    simp only [calculateIntensityLevels] at hw
    split at hw
    · exact buildCellGrid_future hw hc hfut
    · obtain ⟨week₀, hw₀, rfl⟩ := List.mem_map.mp hw
      obtain ⟨c₀, hc₀, rfl⟩ := List.mem_map.mp hc
      rw [classifyCell_date] at hfut
      obtain ⟨hv, hi⟩ := buildCellGrid_future hw₀ hc₀ hfut
      refine ⟨?_, ?_⟩ <;> simp [classifyCell, hv, hi]

/-- Witness for C2 at a concrete 7-day window ending 2024-03-31 01:00
UTC, with index activity recorded on the future day 2024-04-01. -/
theorem claim_C2_witness :
    ([Cell.mk 19813 0 0, Cell.mk 19814 0 0, Cell.mk 19815 0 0, Cell.mk 19816 0 0,
      Cell.mk 19817 0 0, Cell.mk 19818 0 0, Cell.mk 19819 0 0] ∈
        buildCellGrid [(19814, ⟨19814, ∅, 5, 5⟩)] HeatmapMetric.interactions 80
          (19807 * 86400 + 3600) (19813 * 86400 + 3600))
    ∧ (Cell.mk 19814 0 0 ∈
        [Cell.mk 19813 0 0, Cell.mk 19814 0 0, Cell.mk 19815 0 0, Cell.mk 19816 0 0,
         Cell.mk 19817 0 0, Cell.mk 19818 0 0, Cell.mk 19819 0 0])
    ∧ dayOfInstant (19813 * 86400 + 3600) < (Cell.mk 19814 0 0).date
    ∧ ((Cell.mk 19814 0 0).value = 0 ∧ (Cell.mk 19814 0 0).intensity = 0) :=
  ⟨by decide, by decide, by decide,
   claim_C2.1 [(19814, ⟨19814, ∅, 5, 5⟩)] HeatmapMetric.interactions 80
     (19807 * 86400 + 3600) (19813 * 86400 + 3600)
     [Cell.mk 19813 0 0, Cell.mk 19814 0 0, Cell.mk 19815 0 0, Cell.mk 19816 0 0,
      Cell.mk 19817 0 0, Cell.mk 19818 0 0, Cell.mk 19819 0 0]
     (Cell.mk 19814 0 0) (by decide) (by decide) (by decide)⟩

/-- Counterexample for C2 as stated: in the same concrete grid, the cell
for the future day 2024-04-01 (epoch day 19814) -- a date the index even
marks active -- has intensity 0 after grid construction and after
classification, not the claimed -1. -/
theorem claim_C2_counterexample :
    dayOfInstant (19813 * 86400 + 3600) = 19813
    ∧ List.lookup 19814
        ([(19814, ⟨19814, ∅, 5, 5⟩)] : ActivityIndex) = some ⟨19814, ∅, 5, 5⟩
    ∧ (((buildCellGrid [(19814, ⟨19814, ∅, 5, 5⟩)] HeatmapMetric.interactions 80
          (19807 * 86400 + 3600) (19813 * 86400 + 3600)).getD 1 []).getD 1 defaultCell
        = ⟨19814, 0, 0⟩)
    ∧ (((calculateIntensityLevels
          (buildCellGrid [(19814, ⟨19814, ∅, 5, 5⟩)] HeatmapMetric.interactions 80
            (19807 * 86400 + 3600) (19813 * 86400 + 3600))).getD 1 []).getD 1 defaultCell
        = ⟨19814, 0, 0⟩) := by
  exact ⟨by decide, by decide, by decide, by decide⟩

/-- C7: every week row of the built grid is exactly 7 cells covering a
Sunday-through-Saturday calendar week; the number of week columns never
exceeds the width budget; the grid is the most recent suffix of the full
week sequence (whole weeks are dropped only from the front); and when
more weeks exist than fit, exactly the budget many most recent weeks are
kept. -/
theorem claim_C7 :
    ∀ (index : ActivityIndex) (metric : HeatmapMetric) (tw : Nat) (s e : Int),
      (∀ week ∈ buildCellGrid index metric tw s e,
        week.length = 7 ∧
        ∃ ws : Int, dayOfWeekSun ws = 0 ∧
          week.map Cell.date = (List.range 7).map (fun (i : Nat) => ws + (i : Int)))
      ∧ (buildCellGrid index metric tw s e).length ≤ maxWeeksForWidth tw
      ∧ buildCellGrid index metric tw s e =
          (buildCellGridAll index metric s e).drop
            ((buildCellGridAll index metric s e).length -
              min (buildCellGridAll index metric s e).length (maxWeeksForWidth tw))
      ∧ (maxWeeksForWidth tw < (buildCellGridAll index metric s e).length →
          (buildCellGrid index metric tw s e).length = maxWeeksForWidth tw) := by
  intro index metric tw s e
  have hdrop : buildCellGrid index metric tw s e =
      (buildCellGridAll index metric s e).drop
        ((buildCellGridAll index metric s e).length -
          min (buildCellGridAll index metric s e).length (maxWeeksForWidth tw)) := by
    simp only [buildCellGrid]
    split
    · rfl
    · rename_i hns
      have : min (buildCellGridAll index metric s e).length (maxWeeksForWidth tw) =
          (buildCellGridAll index metric s e).length := by omega
      rw [this, Nat.sub_self, List.drop_zero]
  refine ⟨?_, ?_, hdrop, ?_⟩
  · intro week hw
    obtain ⟨ws, hsun, rfl⟩ := mem_buildCellGridAll (mem_buildCellGrid_sub hw)
    refine ⟨by simp, ws, hsun, ?_⟩
    rw [List.map_map]
    exact List.map_congr_left fun i _ => cellFor_date index metric s e (ws + (i : Int))
  · rw [hdrop, List.length_drop]
    omega
  · intro hlt
    rw [hdrop, List.length_drop]
    omega

/-- Witness for C7 at a concrete 7-day window: the first week of the
grid is a full Sunday-to-Saturday row of 7 cells. -/
theorem claim_C7_witness :
    ([Cell.mk 19806 0 (-1), Cell.mk 19807 0 (-1), Cell.mk 19808 0 0, Cell.mk 19809 0 0,
      Cell.mk 19810 0 0, Cell.mk 19811 0 0, Cell.mk 19812 0 0] ∈
        buildCellGrid [] HeatmapMetric.interactions 80
          (19807 * 86400 + 3600) (19813 * 86400 + 3600))
    ∧ ([Cell.mk 19806 0 (-1), Cell.mk 19807 0 (-1), Cell.mk 19808 0 0, Cell.mk 19809 0 0,
        Cell.mk 19810 0 0, Cell.mk 19811 0 0, Cell.mk 19812 0 0].length = 7
      ∧ ∃ ws : Int, dayOfWeekSun ws = 0 ∧
          [Cell.mk 19806 0 (-1), Cell.mk 19807 0 (-1), Cell.mk 19808 0 0, Cell.mk 19809 0 0,
           Cell.mk 19810 0 0, Cell.mk 19811 0 0, Cell.mk 19812 0 0].map Cell.date =
            (List.range 7).map (fun (i : Nat) => ws + (i : Int))) :=
  ⟨by decide,
   (claim_C7 [] HeatmapMetric.interactions 80 (19807 * 86400 + 3600)
       (19813 * 86400 + 3600)).1
     [Cell.mk 19806 0 (-1), Cell.mk 19807 0 (-1), Cell.mk 19808 0 0, Cell.mk 19809 0 0,
      Cell.mk 19810 0 0, Cell.mk 19811 0 0, Cell.mk 19812 0 0] (by decide)⟩

/-- The inner value-collection fold of one week, as filter-map. -/
theorem collectWeek_eq (week : List Cell) :
    ∀ acc : List Nat,
      week.foldl
        (fun acc c => if c.intensity ≠ -1 ∧ 0 < c.value then acc ++ [c.value] else acc) acc =
      acc ++ (week.filter (fun c => decide (c.intensity ≠ -1) && decide (0 < c.value))).map
        Cell.value := by
  induction week with
  | nil => intro acc; simp
  | cons c rest ih =>
    intro acc
    by_cases h : c.intensity ≠ -1 ∧ 0 < c.value
    · simp [List.filter_cons, h, ih, h.1, h.2]
    · rw [List.foldl_cons, if_neg h, ih, List.filter_cons]
      have hfalse : (decide (c.intensity ≠ -1) && decide (0 < c.value)) = false := by
        rcases Decidable.not_and_iff_or_not.mp h with h1 | h1 <;> simp [h1]
      rw [hfalse]
      simp

/-- The value collection of the classifier equals the spec's positive
in-range values, in traversal order. -/
theorem collectValues_eq (grid : List (List Cell)) :
    collectValues grid = specPositiveValues grid := by
  suffices hgen : ∀ acc : List Nat,
      grid.foldl
        (fun acc week =>
          week.foldl
            (fun acc c => if c.intensity ≠ -1 ∧ 0 < c.value then acc ++ [c.value] else acc)
            acc) acc =
        acc ++ specPositiveValues grid by
    simpa [collectValues] using hgen []
  induction grid with
  | nil => intro acc; simp [specPositiveValues]
  | cons week rest ih =>
    intro acc
    simp only [List.foldl_cons]
    rw [collectWeek_eq, ih]
    simp [specPositiveValues, List.filter_append, List.append_assoc]

/-- The in-file insertion step agrees with the library's ordered insert. -/
theorem insertSortedNat_eq (v : Nat) (l : List Nat) :
    insertSortedNat v l = List.orderedInsert (· ≤ ·) v l := by
  induction l with
  | nil => rfl
  | cons x xs ih => simp [insertSortedNat, List.orderedInsert, ih]

/-- The spec's ascending sort agrees with the classifier's sort. -/
theorem sortAsc_eq (l : List Nat) : sortAsc l = List.insertionSort (· ≤ ·) l := by
  induction l with
  | nil => rfl
  | cons x xs ih =>
    rw [show sortAsc (x :: xs) = insertSortedNat x (sortAsc xs) from rfl, ih,
      insertSortedNat_eq,
      show List.insertionSort (· ≤ ·) (x :: xs) =
        List.orderedInsert (· ≤ ·) x (List.insertionSort (· ≤ ·) xs) from rfl]
  
/-- The classifier's if-chain computes the spec's level function on every
cell not marked -1. -/
theorem classifyCell_eq (q1 q2 q3 : Nat) (c : Cell) :
    classifyCell q1 q2 q3 c =
      if c.intensity = -1 then c else { c with intensity := specLevel q1 q2 q3 c.value } := by
  by_cases h0 : c.intensity = -1
  · simp [classifyCell, h0]
  · by_cases h1 : c.value = 0
    · simp [classifyCell, specLevel, h0, h1]
    · by_cases h2 : c.value ≤ q1
      · simp [classifyCell, specLevel, h0, h1, h2]
      · by_cases h3 : c.value ≤ q2
        · simp [classifyCell, specLevel, h0, h1, h2, h3]
        · by_cases h4 : c.value ≤ q3 <;>
            simp [classifyCell, specLevel, h0, h1, h2, h3, h4]

/-- C3: the intensity classifier is exactly the specification's
procedure -- collect the positive values of cells with intensity other
than -1, sort ascending, take breakpoints Q1, Q2, Q3 at indexes floor of
n times 0.25, 0.5 and 0.75, and assign value 0 to level 0, values at
most Q1, Q2, Q3 to levels 1, 2, 3 and the rest to 4 with ties falling to
the lower level; four equal positive values 5,5,5,5 all land at level 1,
and with no positive values the grid is left untouched. -/
theorem claim_C3 :
    (∀ grid : List (List Cell), calculateIntensityLevels grid = specClassify grid)
    ∧ calculateIntensityLevels
        [[Cell.mk 0 5 0, Cell.mk 1 5 0], [Cell.mk 2 5 0, Cell.mk 3 5 0]] =
        [[Cell.mk 0 5 1, Cell.mk 1 5 1], [Cell.mk 2 5 1, Cell.mk 3 5 1]]
    ∧ (∀ grid : List (List Cell), collectValues grid = [] →
        calculateIntensityLevels grid = grid) := by
  refine ⟨?_, by decide, ?_⟩
  · intro grid
    have hs : List.insertionSort (· ≤ ·) (collectValues grid) =
        sortAsc (specPositiveValues grid) := by
      rw [collectValues_eq, sortAsc_eq]
    have hcells : ∀ q1 q2 q3 : Nat, classifyCell q1 q2 q3 = fun c =>
        if c.intensity = -1 then c
        else { c with intensity := specLevel q1 q2 q3 c.value } :=
      fun q1 q2 q3 => funext (classifyCell_eq q1 q2 q3)
    simp only [calculateIntensityLevels, specClassify, hs, hcells]
  · intro grid h
    simp only [calculateIntensityLevels, h]
    rfl

/-- Witness for C3's no-positive-values case at a concrete grid of one
out-of-range cell and one zero cell. -/
theorem claim_C3_witness :
    collectValues [[Cell.mk 0 3 (-1), Cell.mk 1 0 0]] = []
    ∧ calculateIntensityLevels [[Cell.mk 0 3 (-1), Cell.mk 1 0 0]] =
        [[Cell.mk 0 3 (-1), Cell.mk 1 0 0]] :=
  ⟨by decide, claim_C3.2.2 [[Cell.mk 0 3 (-1), Cell.mk 1 0 0]] (by decide)⟩

/-- Run decomposition of a nonempty list is nonempty. -/
theorem runLengths_ne_nil : ∀ {l : List Int}, l ≠ [] → runLengths l ≠ []
  | [], h => absurd rfl h
  | [_], _ => by simp [runLengths]
  | _ :: _ :: _, _ => by
    simp only [runLengths]
    split <;> simp

/-- Continued run decomposition is never empty. -/
theorem mergedRuns_ne_nil (temp : Nat) (p : Int) (A : List Int) :
    mergedRuns temp p A ≠ [] := by
  cases A with
  | nil => simp [mergedRuns]
  | cons a t =>
    simp only [mergedRuns]
    split <;> simp

/-- A fresh run of length one continued over the rest is exactly the run
decomposition of the whole list. -/
theorem runLengths_cons (d : Int) (A' : List Int) :
    runLengths (d :: A') = mergedRuns 1 d A' := by
  cases A' with
  | nil => rfl
  | cons a t =>
    by_cases h : a = d + 1
    · have h1 : (0 < 1 ∧ a = d + 1) := ⟨Nat.zero_lt_one, h⟩
      simp only [runLengths, mergedRuns, if_pos h, if_pos h1]
      rw [Nat.add_comm]
    · have h1 : ¬ (0 < 1 ∧ a = d + 1) := fun hc => h hc.2
      simp only [runLengths, mergedRuns, if_neg h, if_neg h1]

/-- When the next active date continues the pending run, continuing with
the extended pending run over the rest gives the same run lengths. -/
theorem mergedRuns_consec (temp : Nat) (htemp : 0 < temp) (p : Int) (A' : List Int) :
    mergedRuns temp p ((p + 1) :: A') = mergedRuns (temp + 1) (p + 1) A' := by
  cases A' with
  | nil => simp [mergedRuns, runLengths, htemp]
  | cons a t =>
    by_cases h : a = p + 1 + 1
    · subst h
      simp [mergedRuns, runLengths, htemp]
      omega
    · simp [mergedRuns, runLengths, htemp, h]

/-- When the pending run cannot continue into the list head, the pending
length stands alone ahead of the run decomposition. -/
theorem mergedRuns_sep {temp : Nat} {p : Int} {A : List Int}
    (h : ∀ a ∈ A.head?, ¬ (0 < temp ∧ a = p + 1)) :
    mergedRuns temp p A = temp :: runLengths A := by
  cases A with
  | nil => rfl
  | cons a t =>
    have := h a rfl
    simp only [mergedRuns, if_neg this]

/-- Maximum of a cons. -/
theorem listMax_cons (x : Nat) (l : List Nat) : listMax (x :: l) = max x (listMax l) := rfl

/-- A zero ahead does not change the maximum. -/
theorem listMax_zero_cons (l : List Nat) : listMax (0 :: l) = listMax l := by
  simp [listMax]

/-- The default of getLastD is irrelevant on a nonempty list. -/
theorem getLastD_irrel {l : List Nat} (h : l ≠ []) (a b : Nat) :
    l.getLastD a = l.getLastD b := by
  cases l with
  | nil => exact absurd rfl h
  | cons x t => rw [List.getLastD_cons, List.getLastD_cons]

/-- Skipping a head before a nonempty tail keeps the last element. -/
theorem getLastD_skip {x : Nat} {l : List Nat} (h : l ≠ []) (a : Nat) :
    (x :: l).getLastD a = l.getLastD a := by
  rw [List.getLastD_cons]
  exact getLastD_irrel h x a

/-- Bridging a pending run into a consecutive next active date: merging
before or after extending gives the same run maximum and last run. -/
theorem merged_step_consec (temp : Nat) (p : Int) (A' : List Int) :
    listMax (mergedRuns temp p ((p + 1) :: A')) = listMax (mergedRuns (temp + 1) (p + 1) A')
    ∧ (mergedRuns temp p ((p + 1) :: A')).getLastD 0 =
        (mergedRuns (temp + 1) (p + 1) A').getLastD 0 := by
  by_cases htemp : 0 < temp
  · rw [mergedRuns_consec temp htemp]
    exact ⟨rfl, rfl⟩
  · have h0 : temp = 0 := by omega
    subst h0
    have hsep : mergedRuns 0 p ((p + 1) :: A') = 0 :: runLengths ((p + 1) :: A') :=
      mergedRuns_sep (fun a _ hc => absurd hc.1 (lt_irrefl 0))
    rw [hsep, runLengths_cons]
    exact ⟨listMax_zero_cons _, getLastD_skip (mergedRuns_ne_nil _ _ _) 0⟩

/-- Loop-step identity, consecutive active date: processing the date
p + 1 with a pending run ending at p extends the pending run. -/
theorem tailSpec_consec (value : Int → Nat) (temp : Nat) (p : Int) (rest : List Int)
    (hv : 0 < value (p + 1)) :
    tailSpec value temp p ((p + 1) :: rest) = tailSpec value (temp + 1) (p + 1) rest
    ∧ runsSpec value temp p ((p + 1) :: rest) = runsSpec value (temp + 1) (p + 1) rest := by
  have hfc : ((p + 1) :: rest).filter (fun x => decide (0 < value x)) =
      (p + 1) :: rest.filter (fun x => decide (0 < value x)) := by
    simp [List.filter_cons, hv]
  have hm := merged_step_consec temp p (rest.filter (fun x => decide (0 < value x)))
  constructor
  · cases rest with
    | nil =>
      simp only [tailSpec, List.getLast?_singleton, List.getLast?_eq_none_iff, hfc,
        if_pos hv]
      rw [hm.2]
      rfl
    | cons b t =>
      simp only [tailSpec, List.getLast?_cons_cons, hfc]
      cases hlast : (b :: t).getLast? with
      | none => exact absurd (List.getLast?_eq_none_iff.mp hlast) (List.cons_ne_nil b t)
      | some d₂ =>
        by_cases hv₂ : 0 < value d₂
        · simp only [if_pos hv₂]
          exact hm.2
        · simp only [if_neg hv₂]
  · simp only [runsSpec, hfc]
    exact hm.1

/-- Loop-step identity, non-consecutive active date: the pending run is
closed and a fresh run of length one starts at d. -/
theorem tailSpec_break (value : Int → Nat) (temp : Nat) {p d : Int} (rest : List Int)
    (hv : 0 < value d) (hd : ¬ (0 < temp ∧ d = p + 1)) :
    tailSpec value temp p (d :: rest) = tailSpec value 1 d rest
    ∧ runsSpec value temp p (d :: rest) = max temp (runsSpec value 1 d rest) := by
  have hfc : (d :: rest).filter (fun x => decide (0 < value x)) =
      d :: rest.filter (fun x => decide (0 < value x)) := by
    simp [List.filter_cons, hv]
  have hsep : mergedRuns temp p
        (d :: rest.filter (fun x => decide (0 < value x))) =
      temp :: runLengths (d :: rest.filter (fun x => decide (0 < value x))) :=
    mergedRuns_sep (by
      intro a ha
      have had : d = a := by simpa using ha
      subst had
      exact hd)
  constructor
  · cases rest with
    | nil =>
      simp only [tailSpec, List.getLast?_singleton, hfc, if_pos hv, hsep]
      rfl
    | cons b t =>
      simp only [tailSpec, List.getLast?_cons_cons, hfc]
      cases hlast : (b :: t).getLast? with
      | none => exact absurd (List.getLast?_eq_none_iff.mp hlast) (List.cons_ne_nil b t)
      | some d₂ =>
        by_cases hv₂ : 0 < value d₂
        · simp only [if_pos hv₂, hsep, runLengths_cons]
          exact getLastD_skip (mergedRuns_ne_nil _ _ _) 0
        · simp only [if_neg hv₂]
  · simp only [runsSpec, hfc, hsep, runLengths_cons, listMax_cons]

/-- Loop-step identity, inactive date: the pending run is closed, the
date is dropped from the active list, and the pending length resets. -/
theorem tailSpec_zero (value : Int → Nat) (temp : Nat) {p d : Int} {rest : List Int}
    (hv : ¬ 0 < value d) (hpd : p < d) (hrest : ∀ x ∈ rest, d < x) :
    tailSpec value temp p (d :: rest) = tailSpec value 0 d rest
    ∧ runsSpec value temp p (d :: rest) = max temp (runsSpec value 0 d rest) := by
  have hfc : (d :: rest).filter (fun x => decide (0 < value x)) =
      rest.filter (fun x => decide (0 < value x)) := by
    simp [List.filter_cons, hv]
  have hsepL : mergedRuns temp p (rest.filter (fun x => decide (0 < value x))) =
      temp :: runLengths (rest.filter (fun x => decide (0 < value x))) :=
    mergedRuns_sep (by
      intro a ha hc
      have hmem : a ∈ rest.filter (fun x => decide (0 < value x)) :=
        List.mem_of_mem_head? ha
      have : d < a := hrest a (List.mem_filter.mp hmem).1
      omega)
  have hsepR : mergedRuns 0 d (rest.filter (fun x => decide (0 < value x))) =
      0 :: runLengths (rest.filter (fun x => decide (0 < value x))) :=
    mergedRuns_sep (fun a _ hc => absurd hc.1 (lt_irrefl 0))
  constructor
  · cases rest with
    | nil =>
      simp only [tailSpec, List.getLast?_singleton, if_neg hv]
      rfl
    | cons b t =>
      simp only [tailSpec, List.getLast?_cons_cons, hfc]
      cases hlast : (b :: t).getLast? with
      | none => exact absurd (List.getLast?_eq_none_iff.mp hlast) (List.cons_ne_nil b t)
      | some d₂ =>
        by_cases hv₂ : 0 < value d₂
        · simp only [if_pos hv₂, hsepL, hsepR]
          have hmem : d₂ ∈ (b :: t).filter (fun x => decide (0 < value x)) :=
            List.mem_filter.mpr ⟨List.mem_of_mem_getLast? hlast, by simpa using hv₂⟩
          have hne : runLengths ((b :: t).filter (fun x => decide (0 < value x))) ≠ [] :=
            runLengths_ne_nil (by intro hnil; rw [hnil] at hmem; exact absurd hmem (by simp))
          rw [getLastD_skip hne 0, getLastD_skip hne 0]
        · simp only [if_neg hv₂]
  · simp only [runsSpec, hfc, hsepL, hsepR, listMax_cons, listMax_zero_cons]
    omega

/-- After an initial active date, the loop's closed forms collapse to the
streak quantities of the whole list. -/
theorem tailSpec_top_active (value : Int → Nat) (d : Int) (rest : List Int)
    (hv : 0 < value d) :
    tailSpec value 1 d rest = streakTail value (d :: rest)
    ∧ runsSpec value 1 d rest = runsMax value (d :: rest) := by
  have hfc : (d :: rest).filter (fun x => decide (0 < value x)) =
      d :: rest.filter (fun x => decide (0 < value x)) := by
    simp [List.filter_cons, hv]
  constructor
  · cases rest with
    | nil =>
      simp only [streakTail, List.getLast?_singleton, if_pos hv, hfc]
      rfl
    | cons b t =>
      simp only [tailSpec, streakTail, List.getLast?_cons_cons, hfc, runLengths_cons]
      cases hlast : (b :: t).getLast? with
      | none => exact absurd (List.getLast?_eq_none_iff.mp hlast) (List.cons_ne_nil b t)
      | some d₂ => rfl
  · simp only [runsSpec, runsMax, hfc, runLengths_cons]

/-- After an initial inactive date, the loop's closed forms collapse to
the streak quantities of the whole list. -/
theorem tailSpec_top_inactive (value : Int → Nat) {d : Int} {rest : List Int}
    (hv : ¬ 0 < value d) :
    tailSpec value 0 d rest = streakTail value (d :: rest)
    ∧ runsSpec value 0 d rest = runsMax value (d :: rest) := by
  have hfc : (d :: rest).filter (fun x => decide (0 < value x)) =
      rest.filter (fun x => decide (0 < value x)) := by
    simp [List.filter_cons, hv]
  have hsep : mergedRuns 0 d (rest.filter (fun x => decide (0 < value x))) =
      0 :: runLengths (rest.filter (fun x => decide (0 < value x))) :=
    mergedRuns_sep (fun a _ hc => absurd hc.1 (lt_irrefl 0))
  constructor
  · cases rest with
    | nil =>
      simp only [tailSpec, streakTail, List.getLast?_singleton, if_neg hv]
      rfl
    | cons b t =>
      simp only [tailSpec, streakTail, List.getLast?_cons_cons, hfc, hsep]
      cases hlast : (b :: t).getLast? with
      | none => exact absurd (List.getLast?_eq_none_iff.mp hlast) (List.cons_ne_nil b t)
      | some d₂ =>
        by_cases hv₂ : 0 < value d₂
        · simp only [if_pos hv₂]
          have hmem : d₂ ∈ (b :: t).filter (fun x => decide (0 < value x)) :=
            List.mem_filter.mpr ⟨List.mem_of_mem_getLast? hlast, by simpa using hv₂⟩
          have hne : runLengths ((b :: t).filter (fun x => decide (0 < value x))) ≠ [] :=
            runLengths_ne_nil
              (by intro hnil; rw [hnil] at hmem; exact absurd hmem (by simp))
          exact getLastD_skip hne 0
        · simp only [if_neg hv₂]
  · simp only [runsSpec, runsMax, hfc, hsep, listMax_zero_cons]

/-- Invariant of the renderStats loop: over strictly ascending remaining
dates, the final tempStreak and the running maximum are the closed forms
tailSpec and runsSpec of the loop state. -/
theorem statsGo_spec (value : Int → Nat) :
    ∀ (l : List Int) (p : Int) (st : StatsAccum), List.Chain' (· < ·) (p :: l) →
      (statsGo value (some p) st l).tempStreak = tailSpec value st.tempStreak p l
      ∧ max (statsGo value (some p) st l).longestStreak
            (statsGo value (some p) st l).tempStreak =
          max st.longestStreak (runsSpec value st.tempStreak p l) := by
  intro l
  induction l with
  | nil =>
    intro p st _
    refine ⟨rfl, ?_⟩
    simp only [statsGo, tailSpec, runsSpec, List.filter_nil, mergedRuns, listMax,
      List.foldr_cons, List.foldr_nil]
    omega
  | cons d rest ih =>
    intro p st hchain
    obtain ⟨hpd, hchain'⟩ := List.chain'_cons.mp hchain
    by_cases hv : 0 < value d
    · by_cases hd : d = p + 1
      · subst hd
        have hcons : isConsecutive p (p + 1) = true := by
          simp [isConsecutive]
        have hred : statsGo value (some p) st ((p + 1) :: rest) =
            statsGo value (some (p + 1))
              { st with
                totalDays := st.totalDays + 1
                totalValue := st.totalValue + value (p + 1)
                maxValue := max st.maxValue (value (p + 1))
                tempStreak := st.tempStreak + 1 } rest := by
          simp [statsGo, hv, hcons]
        have hi := ih (p + 1)
          { st with
            totalDays := st.totalDays + 1
            totalValue := st.totalValue + value (p + 1)
            maxValue := max st.maxValue (value (p + 1))
            tempStreak := st.tempStreak + 1 } hchain'
        dsimp only at hi
        constructor
        · rw [hred, hi.1]
          exact ((tailSpec_consec value st.tempStreak p rest hv).1).symm
        · rw [hred, hi.2, (tailSpec_consec value st.tempStreak p rest hv).2]
      · have hcons : isConsecutive p d = false := by
          simp only [isConsecutive, decide_eq_false_iff_not]
          omega
        have hred : statsGo value (some p) st (d :: rest) =
            statsGo value (some d)
              { st with
                totalDays := st.totalDays + 1
                totalValue := st.totalValue + value d
                maxValue := max st.maxValue (value d)
                longestStreak := max st.longestStreak st.tempStreak
                tempStreak := 1 } rest := by
          simp [statsGo, hv, hcons]
        have hi := ih d
          { st with
            totalDays := st.totalDays + 1
            totalValue := st.totalValue + value d
            maxValue := max st.maxValue (value d)
            longestStreak := max st.longestStreak st.tempStreak
            tempStreak := 1 } hchain'
        dsimp only at hi
        have hstep := tailSpec_break value st.tempStreak rest hv (fun hc => hd hc.2)
        constructor
        · rw [hred, hi.1]
          exact hstep.1.symm
        · rw [hred, hi.2, hstep.2]
          omega
    · have hrest : ∀ x ∈ rest, d < x := fun x hx =>
        List.rel_of_pairwise_cons (List.chain'_iff_pairwise.mp hchain') hx
      have hred : statsGo value (some p) st (d :: rest) =
          statsGo value (some d)
            { st with
              longestStreak := max st.longestStreak st.tempStreak
              tempStreak := 0 } rest := by
        simp [statsGo, hv]
      have hi := ih d
        { st with
          longestStreak := max st.longestStreak st.tempStreak
          tempStreak := 0 } hchain'
      dsimp only at hi
      have hstep := tailSpec_zero value st.tempStreak hv hpd hrest
      constructor
      · rw [hred, hi.1]
        exact hstep.1.symm
      · rw [hred, hi.2, hstep.2]
        omega

/-- The renderStats loop, started fresh on strictly ascending dates,
computes: as its final tempStreak, the trailing maximal run of
consecutive active dates (0 when the most recent date is inactive); and
as the maximum of longestStreak and tempStreak, the maximum run length
over all active dates. -/
theorem statsGo_runs (value : Int → Nat) (l : List Int)
    (h : List.Chain' (· < ·) l) :
    max (statsGo value none ⟨0, 0, 0, 0, 0⟩ l).longestStreak
        (statsGo value none ⟨0, 0, 0, 0, 0⟩ l).tempStreak = runsMax value l
    ∧ (statsGo value none ⟨0, 0, 0, 0, 0⟩ l).tempStreak = streakTail value l := by
  cases l with
  | nil => exact ⟨rfl, rfl⟩
  | cons d rest =>
    by_cases hv : 0 < value d
    · have hred : statsGo value none ⟨0, 0, 0, 0, 0⟩ (d :: rest) =
          statsGo value (some d) ⟨1, value d, max 0 (value d), 1, 0⟩ rest := by
        simp [statsGo, hv]
      have hi := statsGo_spec value rest d ⟨1, value d, max 0 (value d), 1, 0⟩ h
      dsimp only at hi
      constructor
      · rw [hred, hi.2, (tailSpec_top_active value d rest hv).2]
        omega
      · rw [hred, hi.1]
        exact (tailSpec_top_active value d rest hv).1
    · have hred : statsGo value none ⟨0, 0, 0, 0, 0⟩ (d :: rest) =
          statsGo value (some d) ⟨0, 0, 0, 0, 0⟩ rest := by
        simp [statsGo, hv]
      have hi := statsGo_spec value rest d ⟨0, 0, 0, 0, 0⟩ h
      dsimp only at hi
      constructor
      · rw [hred, hi.2, (tailSpec_top_inactive value hv).2]
        omega
      · rw [hred, hi.1]
        exact (tailSpec_top_inactive value hv).1

/-- The sorted key list renderStats iterates over is strictly ascending
when the map's keys are distinct (as JavaScript Map keys are). -/
theorem sortedDatesOf_chain (m : ActivityIndex) (h : (m.map Prod.fst).Nodup) :
    List.Chain' (· < ·) (sortedDatesOf m) := by
  have hperm := List.perm_insertionSort (· ≤ ·) (m.map Prod.fst)
  have hsorted : List.Sorted (· ≤ ·) (sortedDatesOf m) :=
    List.sorted_insertionSort (· ≤ ·) (m.map Prod.fst)
  have hnodup : (sortedDatesOf m).Nodup := hperm.nodup_iff.mpr h
  rw [List.chain'_iff_pairwise]
  exact (hsorted.and hnodup).imp (fun hab => lt_of_le_of_ne hab.1 hab.2)

/-- C5: longestStreak is the maximum length of a run of
calendar-consecutive active dates (inactive or unrecorded dates break
runs); on the active dates 2024-01-01, 01-02, 01-03, 01-05 (epoch days
19723, 19724, 19725, 19727) with 01-04 inactive, longestStreak is 3 and,
with today = 2024-01-05, currentStreak is 1. -/
theorem claim_C5 :
    (∀ (m : ActivityIndex) (metric : HeatmapMetric) (today : Int),
      (m.map Prod.fst).Nodup →
      (renderStats m metric today).longestStreak =
        listMax (runLengths (activeDates m metric)))
    ∧ (renderStats
        [(19723, ⟨19723, ∅, 1, 0⟩), (19724, ⟨19724, ∅, 1, 0⟩),
         (19725, ⟨19725, ∅, 1, 0⟩), (19727, ⟨19727, ∅, 1, 0⟩)]
        HeatmapMetric.interactions 19727).longestStreak = 3
    ∧ (renderStats
        [(19723, ⟨19723, ∅, 1, 0⟩), (19724, ⟨19724, ∅, 1, 0⟩),
         (19725, ⟨19725, ∅, 1, 0⟩), (19727, ⟨19727, ∅, 1, 0⟩)]
        HeatmapMetric.interactions 19727).currentStreak = 1 := by
  refine ⟨?_, by decide, by decide⟩
  intro m metric today h
  exact (statsGo_runs (statsValue m metric) (sortedDatesOf m) (sortedDatesOf_chain m h)).1

/-- Witness for C5's general part at the example index. -/
theorem claim_C5_witness :
    (([(19723, ⟨19723, ∅, 1, 0⟩), (19724, ⟨19724, ∅, 1, 0⟩),
       (19725, ⟨19725, ∅, 1, 0⟩), (19727, ⟨19727, ∅, 1, 0⟩)] :
        ActivityIndex).map Prod.fst).Nodup
    ∧ (renderStats
        [(19723, ⟨19723, ∅, 1, 0⟩), (19724, ⟨19724, ∅, 1, 0⟩),
         (19725, ⟨19725, ∅, 1, 0⟩), (19727, ⟨19727, ∅, 1, 0⟩)]
        HeatmapMetric.interactions 19727).longestStreak =
      listMax (runLengths (activeDates
        [(19723, ⟨19723, ∅, 1, 0⟩), (19724, ⟨19724, ∅, 1, 0⟩),
         (19725, ⟨19725, ∅, 1, 0⟩), (19727, ⟨19727, ∅, 1, 0⟩)]
        HeatmapMetric.interactions)) :=
  ⟨by decide,
   claim_C5.1
     [(19723, ⟨19723, ∅, 1, 0⟩), (19724, ⟨19724, ∅, 1, 0⟩),
      (19725, ⟨19725, ∅, 1, 0⟩), (19727, ⟨19727, ∅, 1, 0⟩)]
     HeatmapMetric.interactions 19727 (by decide)⟩

/-- C4 (amended): currentStreak is the length of the trailing run of
calendar-consecutive active dates, taken as 0 when the most recent
recorded date has metric value 0, and reported only when the index
records a key for today or yesterday with any value (even 0); otherwise
it is 0.  A zero-valued recorded day therefore resets the trailing run
yet still satisfies the today-or-yesterday recency test. -/
theorem claim_C4 :
    ∀ (m : ActivityIndex) (metric : HeatmapMetric) (today : Int),
      (m.map Prod.fst).Nodup →
      (renderStats m metric today).currentStreak =
        (if (sortedDatesOf m).contains today || (sortedDatesOf m).contains (today - 1)
         then streakTail (statsValue m metric) (sortedDatesOf m)
         else 0) := by
  intro m metric today h
  have hr := statsGo_runs (statsValue m metric) (sortedDatesOf m) (sortedDatesOf_chain m h)
  show (if (sortedDatesOf m).contains today || (sortedDatesOf m).contains (today - 1)
        then (statsGo (statsValue m metric) none ⟨0, 0, 0, 0, 0⟩ (sortedDatesOf m)).tempStreak
        else 0) = _
  rw [hr.2]

/-- Witness for C4 at an index whose only record is an active yesterday. -/
theorem claim_C4_witness :
    (([(19812, ⟨19812, ∅, 1, 5⟩)] : ActivityIndex).map Prod.fst).Nodup
    ∧ (renderStats [(19812, ⟨19812, ∅, 1, 5⟩)] HeatmapMetric.tokens 19813).currentStreak =
        (if (sortedDatesOf [(19812, ⟨19812, ∅, 1, 5⟩)]).contains 19813 ||
            (sortedDatesOf [(19812, ⟨19812, ∅, 1, 5⟩)]).contains (19813 - 1)
         then streakTail (statsValue [(19812, ⟨19812, ∅, 1, 5⟩)] HeatmapMetric.tokens)
           (sortedDatesOf [(19812, ⟨19812, ∅, 1, 5⟩)])
         else 0) :=
  ⟨by decide,
   claim_C4 [(19812, ⟨19812, ∅, 1, 5⟩)] HeatmapMetric.tokens 19813 (by decide)⟩

/-- Counterexample for C4 as stated: with the tokens metric, an index
holding an active yesterday (5 tokens) and a recorded but zero-token
today, the trailing run of active dates is the single day yesterday --
a run of length 1 that includes yesterday -- yet currentStreak is 0: the
zero-valued today key reset the loop's trailing counter while still
passing the today-or-yesterday key test. -/
theorem claim_C4_counterexample :
    (renderStats [(19812, ⟨19812, {"p/s"}, 1, 5⟩), (19813, ⟨19813, {"p/s"}, 1, 0⟩)]
        HeatmapMetric.tokens 19813).currentStreak = 0
    ∧ activeDates [(19812, ⟨19812, {"p/s"}, 1, 5⟩), (19813, ⟨19813, {"p/s"}, 1, 0⟩)]
        HeatmapMetric.tokens = [19812]
    ∧ runLengths [19812] = [1]
    ∧ (19813 : Int) - 1 = 19812 := by
  exact ⟨by decide, by decide, by decide, by decide⟩
